import Mathlib

/-!
Shallow embedding of `rusty_mem_monitor` (src/main.rs), a single-file egui
memory monitor.  The per-tick callback `MemoryMonitor::update` samples the OS
memory counters, computes memory/swap percentages, appends them to two bounded
history vectors (capacity `max_history = 100`, oldest element removed when the
capacity is exceeded), sets the `critical_alarm` flag, renders, and requests
the next repaint after 500 ms.

Numeric model: the Rust code computes with `f64`/`f32`.  Finite values are
modelled as exact rationals (rounding is not modelled; the spec's data model
speaks of real numbers).  The IEEE special values that the unguarded memory
division can produce — positive infinity and NaN — are modelled explicitly by
the type `FV`, with the IEEE rules for nonnegative operands: `x / 0 = +inf`
for `x > 0`, `0 / 0 = NaN`, and every comparison with NaN is false.
-/

/-- An `f64`/`f32` value as it arises in this program: a finite value (exact
rational, rounding not modelled), positive infinity, or NaN.  All finite
values in the program are nonnegative (they come from `u64` counters). -/
inductive FV where
  | fin (q : ℚ)
  | inf
  | nan
deriving DecidableEq

/-- IEEE division restricted to the nonnegative values of this program:
for finite `a, b ≥ 0`, `a / 0` is `+inf` when `a > 0` and NaN when `a = 0`;
NaN propagates; `inf / b = inf` for finite `b ≥ 0`; `a / inf = 0`. -/
def FV.div : FV → FV → FV
  | FV.nan, _ => FV.nan
  | _, FV.nan => FV.nan
  | FV.fin a, FV.fin b => if b = 0 then (if a = 0 then FV.nan else FV.inf) else FV.fin (a / b)
  | FV.inf, FV.fin _ => FV.inf
  | FV.fin _, FV.inf => FV.fin 0
  | FV.inf, FV.inf => FV.nan

/-- IEEE multiplication restricted to the nonnegative values of this program:
NaN propagates; `inf * b` is NaN for `b = 0` and `inf` for finite `b > 0`. -/
def FV.mul : FV → FV → FV
  | FV.nan, _ => FV.nan
  | _, FV.nan => FV.nan
  | FV.fin a, FV.fin b => FV.fin (a * b)
  | FV.inf, FV.fin b => if b = 0 then FV.nan else FV.inf
  | FV.fin a, FV.inf => if a = 0 then FV.nan else FV.inf
  | FV.inf, FV.inf => FV.inf

/-- IEEE `>` restricted to the nonnegative values of this program: any
comparison involving NaN is false; `inf > b` is true for finite `b`. -/
def FV.gt : FV → FV → Bool
  | FV.nan, _ => false
  | _, FV.nan => false
  | FV.fin a, FV.fin b => decide (b < a)
  | FV.inf, FV.fin _ => true
  | FV.fin _, FV.inf => false
  | FV.inf, FV.inf => false

/-- The four `u64` counters read from `sysinfo::System` during one tick
(`total_memory`, `used_memory`, `total_swap`, `used_swap`). -/
structure SysCounters where
  total_memory : ℕ
  used_memory : ℕ
  total_swap : ℕ
  used_swap : ℕ
deriving DecidableEq

/-- main.rs:47-49 — `(used_memory / total_memory * 100.0) as f32`.
The division is not guarded against `total_memory = 0`. -/
def memory_percentage (c : SysCounters) : FV :=
  FV.mul (FV.div (FV.fin (c.used_memory : ℚ)) (FV.fin (c.total_memory : ℚ))) (FV.fin 100)

/-- main.rs:51-55 — swap percentage, guarded: when `total_swap = 0` the
else-branch yields `0.0` and the division is not executed. -/
def swap_percentage (c : SysCounters) : FV :=
  if 0 < c.total_swap then
    FV.mul (FV.div (FV.fin (c.used_swap : ℚ)) (FV.fin (c.total_swap : ℚ))) (FV.fin 100)
  else
    FV.fin 0

/-- main.rs:7-14 — the application state (the `sys: System` handle is the
external metrics source; its per-tick readings enter `update` as
`SysCounters`). -/
structure MemoryMonitor where
  memory_history : List FV
  swap_history : List FV
  max_history : ℕ
  glitch_effect : Bool
  critical_alarm : Bool
deriving DecidableEq

/-- main.rs:17-26 — `MemoryMonitor::new`. -/
def MemoryMonitor.new : MemoryMonitor :=
  { memory_history := []
    swap_history := []
    max_history := 100
    glitch_effect := false
    critical_alarm := false }

/-- main.rs:42-65,173 — the state-relevant effects of one invocation of
`eframe::App::update`.  Inputs: the counters read after `refresh_memory`,
and the random draw for `glitch_effect` (`gen_bool(0.05)`).  Returns the
updated state together with the list of delays (in milliseconds) passed to
`ctx.request_repaint_after` during the callback: line 173 makes exactly one
such call, with `Duration::from_millis(500)`. -/
def MemoryMonitor.update (m : MemoryMonitor) (c : SysCounters) (glitch : Bool) :
    MemoryMonitor × List ℕ :=
  let mp := memory_percentage c
  let sp := swap_percentage c
  let mh := m.memory_history ++ [mp]
  let sh := m.swap_history ++ [sp]
  let evict := m.max_history < mh.length
  ({ m with
      glitch_effect := glitch
      memory_history := if evict then mh.drop 1 else mh
      swap_history := if evict then sh.drop 1 else sh
      critical_alarm := FV.gt mp (FV.fin 90) },
   [500])

/-- main.rs:124-132 — the chart points built from the memory history:
`(i, y)` for each element, index first, chronological order. -/
def MemoryMonitor.memory_points (m : MemoryMonitor) : List (ℚ × FV) :=
  m.memory_history.enum.map (fun p => ((p.1 : ℚ), p.2))

/-- main.rs:129-132 — the chart points built from the swap history. -/
def MemoryMonitor.swap_points (m : MemoryMonitor) : List (ℚ × FV) :=
  m.swap_history.enum.map (fun p => ((p.1 : ℚ), p.2))

/-- The read-only view of the histories handed to the chart (main.rs:124-132).
The state component records that the read leaves the monitor unchanged:
the source only iterates over the vectors. -/
def MemoryMonitor.snapshot (m : MemoryMonitor) :
    (List (ℚ × FV) × List (ℚ × FV)) × MemoryMonitor :=
  ((m.memory_points, m.swap_points), m)

/-- A run of ticks: fold `update` over a list of per-tick inputs
(counter readings and glitch draws), keeping only the state. -/
def runUpdates (m : MemoryMonitor) (cs : List (SysCounters × Bool)) : MemoryMonitor :=
  cs.foldl (fun s p => (s.update p.1 p.2).1) m

/-- `MemoryMonitor.new` with the history capacity generalised from the
program's literal 100 to a parameter, to state the capacity-parametric
buffer property. -/
def initWithCapacity (cap : ℕ) : MemoryMonitor :=
  { memory_history := []
    swap_history := []
    max_history := cap
    glitch_effect := false
    critical_alarm := false }

/-! ### Helper lemmas on a single update -/

lemma update_memory_history (m : MemoryMonitor) (c : SysCounters) (g : Bool) :
    (m.update c g).1.memory_history =
      if m.max_history < m.memory_history.length + 1
      then (m.memory_history ++ [memory_percentage c]).drop 1
      else m.memory_history ++ [memory_percentage c] := by
  simp [MemoryMonitor.update]

lemma update_swap_history (m : MemoryMonitor) (c : SysCounters) (g : Bool) :
    (m.update c g).1.swap_history =
      if m.max_history < m.memory_history.length + 1
      then (m.swap_history ++ [swap_percentage c]).drop 1
      else m.swap_history ++ [swap_percentage c] := by
  simp [MemoryMonitor.update]

lemma update_max_history (m : MemoryMonitor) (c : SysCounters) (g : Bool) :
    (m.update c g).1.max_history = m.max_history := by
  simp [MemoryMonitor.update]

lemma update_glitch_effect (m : MemoryMonitor) (c : SysCounters) (g : Bool) :
    (m.update c g).1.glitch_effect = g := by
  simp [MemoryMonitor.update]

lemma update_critical_alarm (m : MemoryMonitor) (c : SysCounters) (g : Bool) :
    (m.update c g).1.critical_alarm = FV.gt (memory_percentage c) (FV.fin 90) := by
  simp [MemoryMonitor.update]

lemma update_repaint (m : MemoryMonitor) (c : SysCounters) (g : Bool) :
    (m.update c g).2 = [500] := rfl

/-! ### The run-level characterisation of the history buffers -/

/-- After any run of updates from a state whose histories have equal length
bounded by the capacity, the capacity is unchanged and each history is the
suffix of (initial history ++ all appended samples) obtained by dropping
just enough from the front to fit the capacity. -/
lemma runUpdates_spec (cs : List (SysCounters × Bool)) (m : MemoryMonitor)
    (hsw : m.swap_history.length = m.memory_history.length)
    (hlen : m.memory_history.length ≤ m.max_history) :
    (runUpdates m cs).max_history = m.max_history ∧
    (runUpdates m cs).memory_history =
      (m.memory_history ++ cs.map (fun p => memory_percentage p.1)).drop
        (m.memory_history.length + cs.length - m.max_history) ∧
    (runUpdates m cs).swap_history =
      (m.swap_history ++ cs.map (fun p => swap_percentage p.1)).drop
        (m.memory_history.length + cs.length - m.max_history) := by
  induction cs generalizing m with
  | nil =>
    have h0 : m.memory_history.length - m.max_history = 0 := by omega
    simp [runUpdates, h0]
  | cons p cs ih =>
    have hrun : runUpdates m (p :: cs) = runUpdates (m.update p.1 p.2).1 cs := rfl
    by_cases hev : m.max_history < m.memory_history.length + 1
    · -- eviction: the buffer was exactly full, the oldest element is dropped
      have hfull : m.memory_history.length = m.max_history := by omega
      have hm1 : (m.update p.1 p.2).1.memory_history =
          (m.memory_history ++ [memory_percentage p.1]).drop 1 := by
        rw [update_memory_history]; simp [hev]
      have hs1 : (m.update p.1 p.2).1.swap_history =
          (m.swap_history ++ [swap_percentage p.1]).drop 1 := by
        rw [update_swap_history]; simp [hev]
      have hm1len : (m.update p.1 p.2).1.memory_history.length = m.memory_history.length := by
        rw [hm1]; simp
      have hs1len : (m.update p.1 p.2).1.swap_history.length =
          (m.update p.1 p.2).1.memory_history.length := by
        rw [hs1, hm1len]; simp [hsw]
      have hmax1 : (m.update p.1 p.2).1.max_history = m.max_history :=
        update_max_history m p.1 p.2
      have hlen1 : (m.update p.1 p.2).1.memory_history.length ≤
          (m.update p.1 p.2).1.max_history := by
        rw [hm1len, hmax1]; exact hlen
      obtain ⟨imax, imem, iswap⟩ := ih (m.update p.1 p.2).1 hs1len hlen1
      refine ⟨by rw [hrun, imax, hmax1], ?_, ?_⟩
      · rw [hrun, imem, hm1len, hmax1, hm1]
        have hidx : m.memory_history.length + cs.length - m.max_history = cs.length := by
          omega
        have hidx2 : m.memory_history.length + (p :: cs).length - m.max_history =
            cs.length + 1 := by
          simp only [List.length_cons]; omega
        rw [hidx, hidx2]
        have hsplit : ((m.memory_history ++ [memory_percentage p.1]).drop 1) ++
              (cs.map (fun q => memory_percentage q.1))
            = ((m.memory_history ++ [memory_percentage p.1]) ++
                (cs.map (fun q => memory_percentage q.1))).drop 1 :=
          (List.drop_append_of_le_length (by simp)).symm
        rw [hsplit, List.drop_drop]
        have harith : (1 : ℕ) + cs.length = cs.length + 1 := by omega
        rw [harith]
        simp
      · rw [hrun, iswap, hm1len, hmax1, hs1]
        have hidx : m.memory_history.length + cs.length - m.max_history = cs.length := by
          omega
        have hidx2 : m.memory_history.length + (p :: cs).length - m.max_history =
            cs.length + 1 := by
          simp only [List.length_cons]; omega
        rw [hidx, hidx2]
        have hsplit : ((m.swap_history ++ [swap_percentage p.1]).drop 1) ++
              (cs.map (fun q => swap_percentage q.1))
            = ((m.swap_history ++ [swap_percentage p.1]) ++
                (cs.map (fun q => swap_percentage q.1))).drop 1 :=
          (List.drop_append_of_le_length (by simp)).symm
        rw [hsplit, List.drop_drop]
        have harith : (1 : ℕ) + cs.length = cs.length + 1 := by omega
        rw [harith]
        simp
    · -- no eviction: the sample is simply appended
      have hm1 : (m.update p.1 p.2).1.memory_history =
          m.memory_history ++ [memory_percentage p.1] := by
        rw [update_memory_history]; simp [hev]
      have hs1 : (m.update p.1 p.2).1.swap_history =
          m.swap_history ++ [swap_percentage p.1] := by
        rw [update_swap_history]; simp [hev]
      have hm1len : (m.update p.1 p.2).1.memory_history.length =
          m.memory_history.length + 1 := by rw [hm1]; simp
      have hs1len : (m.update p.1 p.2).1.swap_history.length =
          (m.update p.1 p.2).1.memory_history.length := by
        rw [hs1, hm1len, List.length_append, hsw]; simp
      have hmax1 : (m.update p.1 p.2).1.max_history = m.max_history :=
        update_max_history m p.1 p.2
      have hlen1 : (m.update p.1 p.2).1.memory_history.length ≤
          (m.update p.1 p.2).1.max_history := by
        rw [hm1len, hmax1]; omega
      obtain ⟨imax, imem, iswap⟩ := ih (m.update p.1 p.2).1 hs1len hlen1
      refine ⟨by rw [hrun, imax, hmax1], ?_, ?_⟩
      · rw [hrun, imem, hm1len, hmax1, hm1]
        have hidx : m.memory_history.length + 1 + cs.length - m.max_history =
            m.memory_history.length + (p :: cs).length - m.max_history := by
          simp only [List.length_cons]; omega
        rw [hidx]
        simp
      · rw [hrun, iswap, hm1len, hmax1, hs1]
        have hidx : m.memory_history.length + 1 + cs.length - m.max_history =
            m.memory_history.length + (p :: cs).length - m.max_history := by
          simp only [List.length_cons]; omega
        rw [hidx]
        simp

lemma enum_cast_snd (l : List FV) :
    (l.enum.map (fun p => ((p.1 : ℚ), p.2))).map Prod.snd = l := by
  rw [List.map_map]
  have h : (Prod.snd ∘ fun p : ℕ × FV => ((p.1 : ℚ), p.2)) = Prod.snd := rfl
  rw [h, List.enum_map_snd]

lemma enum_cast_fst (l : List FV) :
    (l.enum.map (fun p => ((p.1 : ℚ), p.2))).map Prod.fst
      = List.map (fun i : ℕ => (i : ℚ)) (List.range l.length) := by
  rw [List.map_map, ← List.enum_map_fst l, List.map_map]
  rfl

/-- With a positive capacity, the newest sample is always the last element of
the updated memory history. -/
lemma update_memory_history_getLast (m : MemoryMonitor) (c : SysCounters) (g : Bool)
    (hcap : 0 < m.max_history) :
    (m.update c g).1.memory_history.getLast? = some (memory_percentage c) := by
  rw [update_memory_history]
  by_cases hev : m.max_history < m.memory_history.length + 1
  · have hne : m.memory_history ≠ [] := by
      intro hnil
      rw [hnil] at hev
      simp at hev
      omega
    obtain ⟨a, t, hat⟩ := List.exists_cons_of_ne_nil hne
    rw [if_pos hev, hat]
    simp [List.getLast?_concat]
  · rw [if_neg hev]
    exact List.getLast?_concat m.memory_history

/-- C1: appending N samples one at a time to an initially empty history buffer
of capacity C leaves exactly the last min(N, C) appended samples, oldest
first; in particular with capacity 3, ticks whose percentages are 10, 20, 30,
40 produce the histories [10], [10,20], [10,20,30], [20,30,40]. -/
theorem C1_history_last_min :
    (∀ (C : ℕ) (cs : List (SysCounters × Bool)),
      (runUpdates (initWithCapacity C) cs).memory_history
          = (cs.map (fun p => memory_percentage p.1)).drop (cs.length - min cs.length C) ∧
      (runUpdates (initWithCapacity C) cs).memory_history.length = min cs.length C) ∧
    ((runUpdates (initWithCapacity 3)
        [(⟨100, 10, 0, 0⟩, false)]).memory_history = [FV.fin 10] ∧
     (runUpdates (initWithCapacity 3)
        [(⟨100, 10, 0, 0⟩, false), (⟨100, 20, 0, 0⟩, false)]).memory_history
          = [FV.fin 10, FV.fin 20] ∧
     (runUpdates (initWithCapacity 3)
        [(⟨100, 10, 0, 0⟩, false), (⟨100, 20, 0, 0⟩, false),
         (⟨100, 30, 0, 0⟩, false)]).memory_history
          = [FV.fin 10, FV.fin 20, FV.fin 30] ∧
     (runUpdates (initWithCapacity 3)
        [(⟨100, 10, 0, 0⟩, false), (⟨100, 20, 0, 0⟩, false),
         (⟨100, 30, 0, 0⟩, false), (⟨100, 40, 0, 0⟩, false)]).memory_history
          = [FV.fin 20, FV.fin 30, FV.fin 40]) := by
  constructor
  · intro C cs
    obtain ⟨-, hmem, -⟩ := runUpdates_spec cs (initWithCapacity C) rfl (Nat.zero_le _)
    constructor
    · rw [hmem]
      simp only [initWithCapacity, List.length_nil, List.nil_append, Nat.zero_add]
      congr 1
      omega
    · rw [hmem]
      simp only [initWithCapacity, List.length_nil, List.nil_append, Nat.zero_add,
        List.length_drop, List.length_map]
      omega
  · refine ⟨?_, ?_, ?_, ?_⟩ <;>
      norm_num [runUpdates, MemoryMonitor.update, memory_percentage, swap_percentage,
        initWithCapacity, FV.div, FV.mul, FV.gt]

/-- C2: from the empty initial state, after any run of per-tick updates the two
histories always have equal length, that length never exceeds 100, and one
further update appends the new sample to both histories, removing the single
oldest element (index 0) of both exactly when the push would exceed the
capacity. -/
theorem C2_parallel_bounded_fifo (cs : List (SysCounters × Bool)) (c : SysCounters) (g : Bool) :
    (runUpdates MemoryMonitor.new cs).memory_history.length =
      (runUpdates MemoryMonitor.new cs).swap_history.length ∧
    (runUpdates MemoryMonitor.new cs).memory_history.length ≤ 100 ∧
    ((runUpdates MemoryMonitor.new cs).update c g).1.memory_history =
      (if 100 < (runUpdates MemoryMonitor.new cs).memory_history.length + 1
       then ((runUpdates MemoryMonitor.new cs).memory_history ++ [memory_percentage c]).drop 1
       else (runUpdates MemoryMonitor.new cs).memory_history ++ [memory_percentage c]) ∧
    ((runUpdates MemoryMonitor.new cs).update c g).1.swap_history =
      (if 100 < (runUpdates MemoryMonitor.new cs).memory_history.length + 1
       then ((runUpdates MemoryMonitor.new cs).swap_history ++ [swap_percentage c]).drop 1
       else (runUpdates MemoryMonitor.new cs).swap_history ++ [swap_percentage c]) := by
  obtain ⟨hmax, hmem, hswap⟩ := runUpdates_spec cs MemoryMonitor.new rfl
    (by simp [MemoryMonitor.new])
  have hmaxval : (runUpdates MemoryMonitor.new cs).max_history = 100 := hmax
  have hlenm : (runUpdates MemoryMonitor.new cs).memory_history.length =
      cs.length - (cs.length - 100) := by
    rw [hmem]
    simp [MemoryMonitor.new]
  have hlens : (runUpdates MemoryMonitor.new cs).swap_history.length =
      cs.length - (cs.length - 100) := by
    rw [hswap]
    simp [MemoryMonitor.new]
  refine ⟨by rw [hlenm, hlens], by rw [hlenm]; omega, ?_, ?_⟩
  · rw [update_memory_history, hmaxval]
  · rw [update_swap_history, hmaxval]

/-- C3: for every tick, critical_alarm equals the strict IEEE comparison of
the tick's memory percentage with 90; every finite percentage above 90 makes
the comparison true, and a percentage of exactly 90 makes it false. -/
theorem C3_alarm_strict_threshold (m : MemoryMonitor) (c : SysCounters) (g : Bool) :
    ((m.update c g).1.critical_alarm = FV.gt (memory_percentage c) (FV.fin 90)) ∧
    (∀ q : ℚ, 90 < q → FV.gt (FV.fin q) (FV.fin 90) = true) ∧
    FV.gt (FV.fin 90) (FV.fin 90) = false := by
  refine ⟨update_critical_alarm m c g, ?_, by simp [FV.gt]⟩
  intro q hq
  simp [FV.gt, hq]

/-- C3 at concrete inputs: a tick with 95% memory usage raises the alarm,
and the comparison at exactly 90 is false. -/
theorem C3_alarm_strict_threshold_witness :
    ((MemoryMonitor.new.update ⟨1000, 950, 0, 0⟩ false).1.critical_alarm =
      FV.gt (memory_percentage ⟨1000, 950, 0, 0⟩) (FV.fin 90)) ∧
    FV.gt (FV.fin 95) (FV.fin 90) = true ∧
    FV.gt (FV.fin 90) (FV.fin 90) = false := by
  obtain ⟨h1, h2, h3⟩ := C3_alarm_strict_threshold MemoryMonitor.new ⟨1000, 950, 0, 0⟩ false
  exact ⟨h1, h2 95 (by norm_num), h3⟩

/-- C4: the swap percentage is `used_swap / total_swap * 100` when
`total_swap > 0`, and exactly 0 when `total_swap = 0`: the guarded
else-branch never divides, so no division-by-zero value arises. -/
theorem C4_swap_divide_guard (c : SysCounters) :
    (0 < c.total_swap →
      swap_percentage c = FV.fin ((c.used_swap : ℚ) / (c.total_swap : ℚ) * 100)) ∧
    (c.total_swap = 0 → swap_percentage c = FV.fin 0) := by
  constructor
  · intro h
    have hne : ((c.total_swap : ℚ)) ≠ 0 := Nat.cast_ne_zero.mpr (by omega)
    simp [swap_percentage, h, FV.div, FV.mul, hne]
  · intro h
    simp [swap_percentage, h]

/-- C4 at concrete inputs: 1 of 4 swap bytes used gives 25%, and zero total
swap gives 0. -/
theorem C4_swap_divide_guard_witness :
    swap_percentage ⟨0, 0, 4, 1⟩ = FV.fin 25 ∧
    swap_percentage ⟨0, 0, 0, 0⟩ = FV.fin 0 := by
  constructor
  · have h := (C4_swap_divide_guard ⟨0, 0, 4, 1⟩).1 (by norm_num)
    rw [h]
    norm_num
  · exact (C4_swap_divide_guard ⟨0, 0, 0, 0⟩).2 rfl

/-- C5 is false as stated: the claim quantifies over all values of the OS
counters, but with total_memory = 1000 and used_memory = 2000 the computed
memory percentage is 200, which lies outside [0, 100]. -/
theorem C5_counterexample :
    memory_percentage ⟨1000, 2000, 0, 0⟩ = FV.fin 200 ∧ ¬ ((200 : ℚ) ≤ 100) := by
  constructor
  · norm_num [memory_percentage, FV.div, FV.mul]
  · norm_num

/-- C5 (amended): for every tick whose counters are consistent — positive
total memory, used memory at most total memory, used swap at most total
swap — both percentages are finite values in the interval [0, 100]. -/
theorem C5_percentages_in_range (c : SysCounters)
    (htm : 0 < c.total_memory) (hum : c.used_memory ≤ c.total_memory)
    (hus : c.used_swap ≤ c.total_swap) :
    (∃ q : ℚ, memory_percentage c = FV.fin q ∧ 0 ≤ q ∧ q ≤ 100) ∧
    (∃ q : ℚ, swap_percentage c = FV.fin q ∧ 0 ≤ q ∧ q ≤ 100) := by
  constructor
  · refine ⟨(c.used_memory : ℚ) / (c.total_memory : ℚ) * 100, ?_, ?_, ?_⟩
    · have hne : ((c.total_memory : ℚ)) ≠ 0 := Nat.cast_ne_zero.mpr (by omega)
      simp [memory_percentage, FV.div, FV.mul, hne]
    · positivity
    · have hpos : (0 : ℚ) < (c.total_memory : ℚ) := by exact_mod_cast htm
      have h1 : (c.used_memory : ℚ) / (c.total_memory : ℚ) ≤ 1 := by
        rw [div_le_one hpos]
        exact_mod_cast hum
      linarith
  · by_cases hts : 0 < c.total_swap
    · refine ⟨(c.used_swap : ℚ) / (c.total_swap : ℚ) * 100, ?_, ?_, ?_⟩
      · have hne : ((c.total_swap : ℚ)) ≠ 0 := Nat.cast_ne_zero.mpr (by omega)
        simp [swap_percentage, hts, FV.div, FV.mul, hne]
      · positivity
      · have hpos : (0 : ℚ) < (c.total_swap : ℚ) := by exact_mod_cast hts
        have h1 : (c.used_swap : ℚ) / (c.total_swap : ℚ) ≤ 1 := by
          rw [div_le_one hpos]
          exact_mod_cast hus
        linarith
    · have h0 : c.total_swap = 0 := by omega
      exact ⟨0, by simp [swap_percentage, h0], le_refl 0, by norm_num⟩

/-- C5 (amended) at a concrete input: total_memory = 1000, used_memory = 950
gives percentages inside [0, 100]. -/
theorem C5_percentages_in_range_witness :
    (∃ q : ℚ, memory_percentage ⟨1000, 950, 0, 0⟩ = FV.fin q ∧ 0 ≤ q ∧ q ≤ 100) ∧
    (∃ q : ℚ, swap_percentage ⟨1000, 950, 0, 0⟩ = FV.fin q ∧ 0 ≤ q ∧ q ≤ 100) :=
  C5_percentages_in_range ⟨1000, 950, 0, 0⟩ (by norm_num) (by norm_num) (by norm_num)

/-- C6: the alarm flag after a tick depends only on the tick's memory
percentage: any two states and counter readings that produce the same
percentage produce the same alarm, whatever the histories contain. -/
theorem C6_alarm_ignores_history (m₁ m₂ : MemoryMonitor) (c₁ c₂ : SysCounters)
    (g₁ g₂ : Bool) (h : memory_percentage c₁ = memory_percentage c₂) :
    (m₁.update c₁ g₁).1.critical_alarm = (m₂.update c₂ g₂).1.critical_alarm := by
  rw [update_critical_alarm, update_critical_alarm, h]

/-- C6 at concrete inputs: the empty state and a state with a full history
entry agree on the alarm for two different counter readings with the same
percentage (50%). -/
theorem C6_alarm_ignores_history_witness :
    (MemoryMonitor.new.update ⟨100, 50, 0, 0⟩ false).1.critical_alarm =
      (({ MemoryMonitor.new with
            memory_history := [FV.fin 99],
            swap_history := [FV.fin 1] } : MemoryMonitor).update
        ⟨200, 100, 0, 0⟩ true).1.critical_alarm :=
  C6_alarm_ignores_history _ _ _ _ _ _
    (by norm_num [memory_percentage, FV.div, FV.mul])

/-- C7: reading the chart snapshot is idempotent and side-effect free: the
read returns the monitor unchanged, a second read returns the same sequences,
and the sequences list the history values in chronological order, indexed
0, 1, 2, … oldest first. -/
theorem C7_snapshot_idempotent (m : MemoryMonitor) :
    m.snapshot.2 = m ∧
    m.snapshot.2.snapshot.1 = m.snapshot.1 ∧
    m.snapshot.1.1.map Prod.snd = m.memory_history ∧
    m.snapshot.1.2.map Prod.snd = m.swap_history ∧
    m.snapshot.1.1.map Prod.fst
      = List.map (fun i : ℕ => (i : ℚ)) (List.range m.memory_history.length) ∧
    m.snapshot.1.2.map Prod.fst
      = List.map (fun i : ℕ => (i : ℚ)) (List.range m.swap_history.length) :=
  ⟨rfl, rfl, enum_cast_snd m.memory_history, enum_cast_snd m.swap_history,
   enum_cast_fst m.memory_history, enum_cast_fst m.swap_history⟩

/-- C8: every invocation of the per-tick callback issues exactly one repaint
request, with a fixed delay of 500 milliseconds. -/
theorem C8_one_repaint_500ms (m : MemoryMonitor) (c : SysCounters) (g : Bool) :
    (m.update c g).2 = [500] := rfl

/-- C9 is false as stated: the claim covers every tick with total_memory = 0,
but with used_memory = 1 the unguarded division yields +infinity, not NaN,
and the alarm is set to true, not false. -/
theorem C9_counterexample :
    memory_percentage ⟨0, 1, 0, 0⟩ = FV.inf ∧
    memory_percentage ⟨0, 1, 0, 0⟩ ≠ FV.nan ∧
    (MemoryMonitor.new.update ⟨0, 1, 0, 0⟩ false).1.critical_alarm = true := by
  have hmp : memory_percentage ⟨0, 1, 0, 0⟩ = FV.inf := by
    norm_num [memory_percentage, FV.div, FV.mul]
  refine ⟨hmp, ?_, ?_⟩
  · rw [hmp]
    intro h
    cases h
  · rw [update_critical_alarm, hmp]
    rfl

/-- C9 (amended): the memory division is unguarded.  On a tick with
total_memory = 0 and used_memory = 0 the percentage is NaN, the NaN is still
appended to the memory history, and the comparison with 90 leaves the alarm
false; with total_memory = 0 and used_memory > 0 the percentage is +infinity,
it is appended, and the alarm is set to true. -/
theorem C9_unguarded_memory_division (m : MemoryMonitor) (c : SysCounters) (g : Bool)
    (htot : c.total_memory = 0) (hcap : 0 < m.max_history) :
    (c.used_memory = 0 →
      memory_percentage c = FV.nan ∧
      (m.update c g).1.critical_alarm = false ∧
      (m.update c g).1.memory_history.getLast? = some FV.nan) ∧
    (0 < c.used_memory →
      memory_percentage c = FV.inf ∧
      (m.update c g).1.critical_alarm = true ∧
      (m.update c g).1.memory_history.getLast? = some FV.inf) := by
  constructor
  · intro hused
    have hmp : memory_percentage c = FV.nan := by
      simp [memory_percentage, htot, hused, FV.div, FV.mul]
    refine ⟨hmp, ?_, ?_⟩
    · rw [update_critical_alarm, hmp]
      rfl
    · rw [update_memory_history_getLast m c g hcap, hmp]
  · intro hused
    have hne : ((c.used_memory : ℚ)) ≠ 0 := Nat.cast_ne_zero.mpr (by omega)
    have hmp : memory_percentage c = FV.inf := by
      simp [memory_percentage, htot, FV.div, FV.mul, hne]
    refine ⟨hmp, ?_, ?_⟩
    · rw [update_critical_alarm, hmp]
      rfl
    · rw [update_memory_history_getLast m c g hcap, hmp]

/-- C9 (amended) at concrete inputs: counters (0, 0) give NaN, no alarm, NaN
appended; counters (0, 1) give +infinity, alarm raised, +infinity appended. -/
theorem C9_unguarded_memory_division_witness :
    (memory_percentage ⟨0, 0, 0, 0⟩ = FV.nan ∧
     (MemoryMonitor.new.update ⟨0, 0, 0, 0⟩ false).1.critical_alarm = false ∧
     (MemoryMonitor.new.update ⟨0, 0, 0, 0⟩ false).1.memory_history.getLast?
        = some FV.nan) ∧
    (memory_percentage ⟨0, 1, 0, 0⟩ = FV.inf ∧
     (MemoryMonitor.new.update ⟨0, 1, 0, 0⟩ false).1.critical_alarm = true ∧
     (MemoryMonitor.new.update ⟨0, 1, 0, 0⟩ false).1.memory_history.getLast?
        = some FV.inf) :=
  ⟨(C9_unguarded_memory_division MemoryMonitor.new ⟨0, 0, 0, 0⟩ false rfl
      (by simp [MemoryMonitor.new])).1 rfl,
   (C9_unguarded_memory_division MemoryMonitor.new ⟨0, 1, 0, 0⟩ false rfl
      (by simp [MemoryMonitor.new])).2 (by norm_num)⟩

/-- C10: the capacity field max_history is never modified: a single update
preserves it, every run from the initial state leaves it at 100, and the
glitch field is overwritten with the tick's random draw — update touches no
field other than glitch_effect, the two histories and critical_alarm. -/
theorem C10_capacity_never_modified (m : MemoryMonitor) (c : SysCounters) (g : Bool)
    (cs : List (SysCounters × Bool)) :
    (m.update c g).1.max_history = m.max_history ∧
    (runUpdates MemoryMonitor.new cs).max_history = 100 ∧
    (m.update c g).1.glitch_effect = g := by
  refine ⟨update_max_history m c g, ?_, update_glitch_effect m c g⟩
  obtain ⟨hmax, -, -⟩ := runUpdates_spec cs MemoryMonitor.new rfl (by simp [MemoryMonitor.new])
  exact hmax
